import Mathlib

/-!
Shallow embedding of the search-and-match engine of the Excel search
desktop application (`src/main.py`, class `SearchWorker`), together with
theorems settling the frozen claims about it.

The engine is pure sequential logic over filesystem data; it is embedded
here as executable Lean functions over explicit environment values.
Python string builtins (`strip`, `split`, `lower`, `upper`, `replace`)
are modelled character-for-character over ASCII, the range exercised by
every concrete input in this file.  Python `float` parsing and printing
are modelled by exact decimal arithmetic; this coincides with
IEEE-double behaviour on every decimal literal short enough to round-trip
(all numerals appearing in the claims and in this file).  The one float
computation the engine performs — the progress percentage
`int((i / total_files) * 100)` — is modelled by exact binary64
round-to-nearest-even rounding (`pyProgress`).
-/

namespace ExcelSearch

/-! ## Python string primitives (ASCII scope) -/

/-- The whitespace characters recognised by Python `str.strip()` /
`str.split()` (ASCII range). -/
def pyWs : List Char := [' ', '\t', '\n', '\r', '\x0b', '\x0c']

def isWs (c : Char) : Bool := pyWs.contains c

/-- Remove the characters of `bad` from both ends of a string, as Python
`str.strip(chars)` does. -/
def stripChars (bad : List Char) (s : String) : String :=
  ⟨((s.data.dropWhile (fun c => bad.contains c)).reverse.dropWhile
      (fun c => bad.contains c)).reverse⟩

/-- Python `str.strip()` with no argument. -/
def pyStrip (s : String) : String := stripChars pyWs s

def lowerAsciiChar (c : Char) : Char :=
  if 'A' ≤ c ∧ c ≤ 'Z' then Char.ofNat (c.toNat + 32) else c

def upperAsciiChar (c : Char) : Char :=
  if 'a' ≤ c ∧ c ≤ 'z' then Char.ofNat (c.toNat - 32) else c

/-- Python `str.lower()` (ASCII scope). -/
def pyLower (s : String) : String := ⟨s.data.map lowerAsciiChar⟩

/-- Python `str.upper()` (ASCII scope). -/
def pyUpper (s : String) : String := ⟨s.data.map upperAsciiChar⟩

/-- Python `str.replace(' ', '')`: removes space characters (U+0020 only,
not other whitespace). -/
def removeSpaces (s : String) : String := ⟨s.data.filter (fun c => c ≠ ' ')⟩

/-! ## The token matcher (`SearchWorker.is_exact_match`, lines 430-451) -/

/-- First normalisation step of `is_exact_match`:
`replace('\r\n', ' ')` — a CRLF pair becomes a single space. -/
def collapseCrlf : List Char → List Char
  | [] => []
  | '\r' :: '\n' :: rest => ' ' :: collapseCrlf rest
  | c :: rest => c :: collapseCrlf rest

/-- Remaining single-character replacements of `is_exact_match`:
`'\r'`, `'\n'`, `','`, `';'`, `'\t'` each becomes a space.  After
`collapseCrlf` these sequential `str.replace` calls act independently on
single characters. -/
def delimToSpace (c : Char) : Char :=
  if c = '\r' ∨ c = '\n' ∨ c = ',' ∨ c = ';' ∨ c = '\t' then ' ' else c

def normalizeChars (s : String) : List Char :=
  (collapseCrlf s.data).map delimToSpace

/-- Python `str.split()` with no argument: split on whitespace runs and
discard empty pieces.  The accumulator holds the current token reversed. -/
def splitWsAux : List Char → List Char → List String
  | [], acc => if acc = [] then [] else [⟨acc.reverse⟩]
  | c :: rest, acc =>
    if isWs c then
      if acc = [] then splitWsAux rest []
      else ⟨acc.reverse⟩ :: splitWsAux rest []
    else splitWsAux rest (c :: acc)

/-- The `normalized_cell.split()` parts of `is_exact_match`. -/
def parts (s : String) : List String := splitWsAux (normalizeChars s) []

/-- The punctuation set stripped from both ends of each part:
`part.strip('.,;:!?()[]{}"\'')`. -/
def punctSet : List Char :=
  ['.', ',', ';', ':', '!', '?', '(', ')', '[', ']', '{', '}', '"', '\'']

def stripPunct (s : String) : String := stripChars punctSet s

/-- `SearchWorker.is_exact_match(cell_str, search_variant)`
(src/main.py lines 430-451), translated clause by clause:
empty-cell / empty-variant guard, normalisation, whitespace split,
punctuation strip, exact comparison with the spaces-removed secondary
comparison. -/
def is_exact_match (cell_str search_variant : String) : Bool :=
  if cell_str = "" ∨ search_variant = "" then false
  else
    (parts cell_str).any fun part =>
      let part_clean := stripPunct part
      if part_clean = "" then false
      else decide (part_clean = search_variant)
           || decide (removeSpaces part_clean = search_variant)

/-- Modelled from the spec (§4.3 and the §9 open question): the same
matcher with the spaces-removed secondary comparison deleted, used as
the comparison point for the refinement claim C9. -/
def is_exact_match_primary_only (cell_str search_variant : String) : Bool :=
  if cell_str = "" ∨ search_variant = "" then false
  else
    (parts cell_str).any fun part =>
      let part_clean := stripPunct part
      if part_clean = "" then false
      else decide (part_clean = search_variant)

/-- The delimiter-separated, punctuation-trimmed, non-empty tokens of a
cell text — the comparison units of `is_exact_match`. -/
def tokensOf (s : String) : List String :=
  ((parts s).map stripPunct).filter (fun t => t ≠ "")

/-- The per-cell variant loop of `SearchWorker.run` (lines 305-309): a
cell matches a variant list when some variant matches exactly. -/
def cellMatches (cell : String) (variants : List String) : Bool :=
  variants.any (is_exact_match cell)

/-! ## Python numeric builtins used by the variant expansion -/

/-- An exact decimal number `num / 10 ^ scale`, the value domain of the
finite floats this program manipulates. -/
structure Dec where
  num : Int
  scale : Nat
deriving DecidableEq

/-- The result of Python `float(...)` on a string: a finite value
(modelled as an exact decimal), an infinity, or a NaN. -/
inductive PyFloat
  | finite (d : Dec)
  | posInf
  | negInf
  | nan
deriving DecidableEq

def digitVal (c : Char) : Option Nat :=
  if '0' ≤ c ∧ c ≤ '9' then some (c.toNat - 48) else none

/-- Read a maximal run of leading decimal digits. -/
def readDigits : List Char → List Nat × List Char
  | [] => ([], [])
  | c :: rest =>
    match digitVal c with
    | some d =>
      let p := readDigits rest
      (d :: p.1, p.2)
    | none => ([], c :: rest)

def natOfDigits (ds : List Nat) : Nat := ds.foldl (fun a d => a * 10 + d) 0

/-- Parse an unsigned decimal numeral `digits [. digits] [(e|E) [sign] digits]`,
returning its exact value. -/
def parseDecimal (cs : List Char) : Option Dec :=
  let p1 := readDigits cs
  let p2 : List Nat × List Char :=
    match p1.2 with
    | '.' :: rest => readDigits rest
    | _ => ([], p1.2)
  if p1.1 = [] ∧ p2.1 = [] then none
  else
    let mant : Dec := ⟨(natOfDigits (p1.1 ++ p2.1) : Int), p2.1.length⟩
    match p2.2 with
    | [] => some mant
    | e :: rest =>
      if e = 'e' ∨ e = 'E' then
        let sr : Bool × List Char :=
          match rest with
          | '+' :: r => (false, r)
          | '-' :: r => (true, r)
          | _ => (false, rest)
        let p3 := readDigits sr.2
        if p3.1 = [] ∨ p3.2 ≠ [] then none
        else
          some (if sr.1 then ⟨mant.num, mant.scale + natOfDigits p3.1⟩
                else ⟨mant.num * (10 : Int) ^ natOfDigits p3.1, mant.scale⟩)
      else none

/-- Python `float(s)` on a string: strip whitespace, optional sign, then
either a case-insensitive `inf`/`infinity`/`nan` keyword or a decimal
numeral.  `none` models a raised `ValueError`. -/
def pyFloat (s : String) : Option PyFloat :=
  let cs := (pyStrip s).data
  let sc : Bool × List Char :=
    match cs with
    | '+' :: rest => (false, rest)
    | '-' :: rest => (true, rest)
    | _ => (false, cs)
  let low := sc.2.map lowerAsciiChar
  if low = "inf".data ∨ low = "infinity".data then
    some (if sc.1 then .negInf else .posInf)
  else if low = "nan".data then some .nan
  else
    match parseDecimal sc.2 with
    | some d => some (.finite (if sc.1 then ⟨-d.num, d.scale⟩ else d))
    | none => none

/-- Python `int(f)` on a finite float: truncation toward zero. -/
def pyTrunc (d : Dec) : Int := d.num.tdiv ((10 : Int) ^ d.scale)

/-- `num_value == int(num_value)`: the finite float is integral. -/
def decIsInt (d : Dec) : Bool := d.num % (10 : Int) ^ d.scale = 0

/-- Python `str` on an `int`. -/
def pyIntStr (i : Int) : String := toString i

/-- Strip trailing decimal zeros (recursion on the scale): the
minimal-scale representation of the same value. -/
def decCanonAux : Nat → Int → Dec
  | 0, n => ⟨n, 0⟩
  | s + 1, n => if n % 10 = 0 then decCanonAux s (n.tdiv 10) else ⟨n, s + 1⟩

def decCanon (d : Dec) : Dec := decCanonAux d.scale d.num

/-- Python `str` on a finite float whose value is an exactly-representable
terminating decimal in the positional-printing range: an integral value
prints as `digits.0`, otherwise the minimal positional decimal form. -/
def pyFloatStr (d : Dec) : String :=
  let c := decCanon d
  if c.scale = 0 then pyIntStr c.num ++ ".0"
  else
    let ds := Nat.toDigits 10 c.num.natAbs
    let ds := if ds.length ≤ c.scale then
        List.replicate (c.scale + 1 - ds.length) '0' ++ ds else ds
    (if c.num < 0 then "-" else "") ++
      ⟨ds.take (ds.length - c.scale)⟩ ++ "." ++ ⟨ds.drop (ds.length - c.scale)⟩

/-! ## Variant expansion (`SearchWorker.run`, lines 202-229) -/

/-- The uncaught exception of the numeric branch: `int()` on an infinite
float raises `OverflowError`, which the `except (ValueError, TypeError)`
handler does not catch. -/
inductive PyError
  | overflowError
deriving DecidableEq

/-- The numeric branch of the expansion loop (lines 216-223):
`float(value)`, then `str(int(num_value))`, `str(num_value)`, and the
duplicate integral form.  A `ValueError` (unparsable string, or `int(nan)`)
is caught before anything is appended; `int(±inf)` raises `OverflowError`,
which escapes. -/
def numericVariants (value : String) : Except PyError (List String) :=
  match pyFloat value with
  | none => .ok []
  | some .nan => .ok []
  | some .posInf => .error .overflowError
  | some .negInf => .error .overflowError
  | some (.finite d) =>
    .ok ([pyIntStr (pyTrunc d), pyFloatStr d] ++
         (if decIsInt d then [pyIntStr (pyTrunc d)] else []))

/-- One iteration of the expansion loop of `run` (lines 203-225):
trim the term, drop it when empty, else build the four base variants and
append the numeric variants.  Returns the `(search_original,
search_variants)` pair. -/
def expandTerm (value : String) : Except PyError (Option (String × List String)) :=
  let str_value := pyStrip value
  if str_value = "" then .ok none
  else
    match numericVariants value with
    | .error e => .error e
    | .ok nums =>
      .ok (some (str_value,
        [str_value, pyLower str_value, pyUpper str_value, removeSpaces str_value] ++ nums))

/-- The whole expansion loop: the `search_data` list of `run`. -/
def buildSearchData : List String → Except PyError (List (String × List String))
  | [] => .ok []
  | v :: rest =>
    match expandTerm v with
    | .error e => .error e
    | .ok none => buildSearchData rest
    | .ok (some p) =>
      match buildSearchData rest with
      | .error e => .error e
      | .ok t => .ok (p :: t)

/-- The per-cell check a single term receives in `run`: does the cell
match any of the term's expanded variants?  (Unexpandable terms abort the
scan before any cell is visited; here they simply report no match.) -/
def termMatchesCell (cell term : String) : Bool :=
  match expandTerm term with
  | .ok (some p) => cellMatches cell p.2
  | _ => false

/-! ## Scratch-file deletion guards
(`SearchWorker.safe_delete_temp_file`, lines 95-105, and
`SearchWorker.is_safe_to_delete`, lines 107-138)

Paths here are absolute, `/`-separated and already normalised, so
`os.path.abspath` is the identity on them. -/

/-- A small filesystem: the regular files and the directories that exist. -/
structure Fs where
  files : List String
  dirs : List String
deriving DecidableEq

def fsExists (fs : Fs) (p : String) : Bool := fs.files.contains p || fs.dirs.contains p

def fsIsFile (fs : Fs) (p : String) : Bool := fs.files.contains p

/-- `os.path.commonprefix` on two strings: character-wise longest common
string prefix (not component-aware). -/
def commonPrefixChars : List Char → List Char → List Char
  | a :: as, b :: bs => if a = b then a :: commonPrefixChars as bs else []
  | _, _ => []

/-- Split a character list at a separator (keeping empty pieces), as
Python `str.split(sep)` does. -/
def splitCharAux (sep : Char) : List Char → List Char → List String
  | [], acc => [⟨acc.reverse⟩]
  | c :: rest, acc =>
    if c = sep then ⟨acc.reverse⟩ :: splitCharAux sep rest []
    else splitCharAux sep rest (c :: acc)

def splitSlash (s : String) : List String := splitCharAux '/' s.data []

def joinSlash : List String → String
  | [] => ""
  | [x] => x
  | x :: rest => x ++ "/" ++ joinSlash rest

/-- `os.path.commonpath` on two absolute paths: component-wise longest
common path. -/
def commonPathStr (a b : String) : String :=
  joinSlash (commonComponents (splitSlash a) (splitSlash b))
where
  commonComponents : List String → List String → List String
    | x :: xs, y :: ys => if x = y then x :: commonComponents xs ys else []
    | _, _ => []

/-- `os.path.basename` of a `/`-separated path. -/
def basenameStr (s : String) : String := ((splitSlash s).getLast?).getD ""

/-- The scratch-naming marker used for temp copies. -/
def scratchMarker : List Char := "excel_search_temp_".data

/-- The supported spreadsheet extensions check:
`name.lower().endswith(('.xlsx', '.xls', '.xlsm', '.xlsb'))`. -/
def extOkName (name : String) : Bool :=
  let l := (pyLower name).data
  ".xlsx".data.isSuffixOf l || ".xls".data.isSuffixOf l ||
  ".xlsm".data.isSuffixOf l || ".xlsb".data.isSuffixOf l

/-- `SearchWorker.safe_delete_temp_file(temp_path)` (lines 95-105), as the
predicate "is the file at `temp_path` deleted": the path is non-empty and
exists, and the character-wise `os.path.commonprefix` of the path and the
temp directory equals the temp directory.  No other guard is applied. -/
def safe_delete_temp_file (fs : Fs) (temp_dir temp_path : String) : Bool :=
  temp_path ≠ "" && fsExists fs temp_path &&
    decide ((⟨commonPrefixChars temp_path.data temp_dir.data⟩ : String) = temp_dir)

/-- `SearchWorker.is_safe_to_delete(file_path)` (lines 107-138): existence,
component-wise containment in the temp directory (`os.path.commonpath`),
the scratch-naming marker on the basename, regular-file check, and the
spreadsheet-extension check — in source order. -/
def is_safe_to_delete (fs : Fs) (temp_dir file_path : String) : Bool :=
  file_path ≠ "" && fsExists fs file_path &&
    decide (commonPathStr file_path temp_dir = temp_dir) &&
    scratchMarker.isPrefixOf (basenameStr file_path).data &&
    fsIsFile fs file_path && extOkName (basenameStr file_path)

/-! ## The scan engine (`SearchWorker.run`, lines 176-428)

The engine is embedded as a deterministic function from an environment
(the filesystem state the scan observes), a request (the constructor
arguments of `SearchWorker`) and a cancellation schedule, to a final
`ScanState` whose ordered `events` list records every outward-visible
action: `message`/`progress`/`finished` signal emissions, directory
listing, scratch-copy creation and deletion, workbook close, sheet reads
and the output write.  Cooperative cancellation (`is_running`) is read
only at the polls the source performs; a schedule `some k` makes the
first `k` polls see `True` and every later poll see `False` (the flag
was cleared between poll `k-1` and poll `k`), and `none` means the flag
is never cleared. -/

/-- One sheet of a workbook: its name and its cell grid.  A cell is
`none` where pandas reads NaN (empty cell); otherwise the `str()`
rendering of the cell value. -/
structure Sheet where
  name : String
  rows : List (List (Option String))
deriving DecidableEq

/-- What opening a source file yields: a parsed workbook, a
`PermissionError` (locked file), or any other failure of
`read_excel_safely` — oversize, vanished or unparsable file — which
surfaces as a generic `Exception` (the scratch copy, when already made,
is deleted at once inside its handler; `corruptAfterCopy` models the
failures that occur after the copy succeeded). -/
inductive FileContent
  | ok (sheets : List Sheet)
  | permissionError
  | corruptAfterCopy
deriving DecidableEq

structure DirEntry where
  name : String
  isFile : Bool
  content : FileContent
deriving DecidableEq

inductive DirState
  | ok
  | missing
  | notDir
  | denied
deriving DecidableEq

inductive WriteOutcome
  | ok
  | permissionError
  | otherError
deriving DecidableEq

/-- The filesystem state one scan observes, plus the request's directory
and output paths (absolute, resolved, component lists). -/
structure Env where
  sourceDir : List String
  entries : List DirEntry
  dirState : DirState
  outputPath : List String
  outputExists : Bool
  writeOutcome : WriteOutcome
deriving DecidableEq

inductive SheetsMode
  | first
  | all
  | named (l : List String)
deriving DecidableEq

/-- The `SearchWorker` constructor arguments that drive the scan
(paths live in `Env`). -/
structure SearchRequest where
  search_values : List String
  column_index : Nat
  selected_columns : List Nat
  sheets_mode : SheetsMode
deriving DecidableEq

/-- Status messages (`self.message.emit`), abstracted to their
identifying content; each constructor stands for one format string of
the source. -/
inductive Msg
  | searchingFiles
  | dirMissing
  | dirNotDir
  | dirDenied
  | skippedTempFile (name : String)
  | foundFiles (n : Nat)
  | processingFile (name : String)
  | cancelled
  | noSheetsIn (file : String)
  | noColumnIn (file sheet : String) (col : Nat)
  | lockedMsg (file : String)
  | fileError (file : String)
  | summaryStatus (found errs locked : Nat)
deriving DecidableEq

/-- Terminal messages (`self.finished.emit`), abstracted likewise. -/
inductive FinMsg
  | pathError
  | noFiles
  | noValidTerms
  | normalSummary (found errs : Nat) (locked : List String)
  | noMatches (locked : List String)
  | outputLocked
  | saveError
  | critical
deriving DecidableEq

/-- The outward-visible actions of a scan, in order. -/
inductive Event
  | status (m : Msg)
  | progress (p : Nat)
  | finishedE (ok : Bool) (m : FinMsg)
  | listDir
  | copyToTemp (id : Nat)
  | deleteTempEarly (id : Nat)
  | deleteTemp (id : Nat)
  | closeWorkbook (file : String)
  | readSheet (file sheet : String)
  | wroteOutput
deriving DecidableEq

/-- The locator attached to each report row: file name, or file name
with sheet name. -/
inductive Locator
  | file (name : String)
  | fileSheet (name sheet : String)
deriving DecidableEq

/-- The per-file / per-sheet error kinds recorded as error rows. -/
inductive ScanErr
  | noSheets
  | noColumn (idx : Nat)
  | lockedFile
  | fileFailed
deriving DecidableEq

/-- One row of the report: a genuine match (term, requested output-column
values, locator) or an error row. -/
inductive ReportRow
  | result (term : String) (cols : List String) (loc : Locator)
  | error (e : ScanErr) (loc : Locator)
deriving DecidableEq

/-- The mutable state of `run`: emitted events, accumulated result and
error rows, locked-file names, the `temp_files_to_cleanup` list (as
scratch-copy ids), the next fresh scratch id, and the number of
`is_running` polls performed. -/
structure ScanState where
  events : List Event
  results : List ReportRow
  errors : List ReportRow
  locked : List String
  temps : List Nat
  nextTemp : Nat
  polls : Nat
deriving DecidableEq

def initState : ScanState := ⟨[], [], [], [], [], 0, 0⟩

def emitE (e : Event) (st : ScanState) : ScanState :=
  { st with events := st.events ++ [e] }

/-- The value of `self.is_running` at the given poll, under cancellation
schedule `ck`. -/
def running (ck : Option Nat) (pollIdx : Nat) : Bool :=
  match ck with
  | none => true
  | some k => pollIdx < k

def pollState (ck : Option Nat) (st : ScanState) : Bool × ScanState :=
  (running ck st.polls, { st with polls := st.polls + 1 })

/-! ### File discovery (`get_excel_files_safely`, lines 140-174) -/

def startsWithTilde (name : String) : Bool := ['~', '$'].isPrefixOf name.data

/-- The directory-listing loop: skip `~$` lock artifacts (with a status
message each), skip non-regular entries, keep supported spreadsheet
extensions.  Returns events and the kept file names in listing order. -/
def scanEntries : List DirEntry → List Event × List String
  | [] => ([], [])
  | e :: rest =>
    let p := scanEntries rest
    if startsWithTilde e.name then (.status (.skippedTempFile e.name) :: p.1, p.2)
    else if ¬ e.isFile then p
    else if extOkName e.name then (p.1, e.name :: p.2)
    else p

/-- `get_excel_files_safely(directory)`: existence and directory checks,
then the listing (`os.listdir` is the `listDir` event); a denied or
broken directory reports a message and yields no files. -/
def discoverStep (env : Env) : List Event × List String :=
  match env.dirState with
  | .missing => ([.status .dirMissing], [])
  | .notDir => ([.status .dirNotDir], [])
  | .denied => ([.listDir, .status .dirDenied], [])
  | .ok => (Event.listDir :: (scanEntries env.entries).1, (scanEntries env.entries).2)

/-! ### Destination validation (`validate_output_path`, lines 453-470) -/

/-- `validate_output_path(output_file, search_directory)`: fail when the
output's parent directory equals the source directory; else, when the
output exists, rediscover the source files and fail when the output path
equals one of them.  Returns the events of the inner discovery and
whether validation passed. -/
def validate_output_path (env : Env) : List Event × Bool :=
  if env.outputPath.dropLast = env.sourceDir then ([], false)
  else if env.outputExists then
    let p := discoverStep env
    (p.1, ¬ p.2.any (fun f => decide (env.sourceDir ++ [f] = env.outputPath)))
  else ([], true)

/-! ### Sheet traversal and row matching (`run`, lines 253-335) -/

/-- A pandas dataframe read with `header=None`: the raw cell grid. -/
structure Df where
  rows : List (List (Option String))
deriving DecidableEq

/-- `len(df.columns)`: pandas pads every row to the widest row's length. -/
def dfNumCols (d : Df) : Nat := (d.rows.map List.length).foldr max 0

/-- `df.empty`: no rows or no columns. -/
def dfEmpty (d : Df) : Bool := d.rows.length = 0 || dfNumCols d = 0

/-- `df.iloc[r, c]`: `none` models NaN (missing or padded cell). -/
def dfCell (d : Df) (r c : Nat) : Option String :=
  (((d.rows.get? r).getD []).get? c).join

/-- `sheets_to_process` resolution (lines 255-261). -/
def sheetsToProcess (mode : SheetsMode) (names : List String) : List String :=
  match mode with
  | .first => match names with | [] => [] | n :: _ => [n]
  | .all => names
  | .named l => l.filter (fun s => names.contains s)

/-- The output-column values of one result row (lines 315-320): the
requested columns, blank when the column index exceeds the sheet width
or the cell is NaN. -/
def outputCols (req : SearchRequest) (df : Df) (idx : Nat) : List String :=
  req.selected_columns.map fun c =>
    if c - 1 < dfNumCols df then (dfCell df idx (c - 1)).getD "" else ""

/-- The row loop of one sheet (lines 294-324): poll the cancellation flag
before each row, skip NaN cells, and append one result row per matching
search term. -/
def processRows (req : SearchRequest) (sd : List (String × List String))
    (ck : Option Nat) (file sheet : String) (df : Df) :
    List Nat → ScanState → ScanState
  | [], st => st
  | idx :: rest, st =>
    let pr := pollState ck st
    if ¬ pr.1 then pr.2
    else
      match dfCell df idx (req.column_index - 1) with
      | none => processRows req sd ck file sheet df rest pr.2
      | some cellStr =>
        let founds := sd.filterMap fun p =>
          if cellMatches cellStr p.2 then some p.1 else none
        let newRows := founds.map fun orig =>
          ReportRow.result orig (outputCols req df idx) (.fileSheet file sheet)
        processRows req sd ck file sheet df rest
          { pr.2 with results := pr.2.results ++ newRows }

/-- One sheet (lines 274-292): read it, skip it when empty, emit one
error row when the search column exceeds its width, else scan its rows. -/
def processOneSheet (req : SearchRequest) (sd : List (String × List String))
    (ck : Option Nat) (file : String) (sh : Sheet) (st : ScanState) : ScanState :=
  let st := emitE (.readSheet file sh.name) st
  let df : Df := ⟨sh.rows⟩
  if dfEmpty df then st
  else if dfNumCols df ≤ req.column_index - 1 then
    let st := emitE (.status (.noColumnIn file sh.name req.column_index)) st
    { st with errors := st.errors ++
        [.error (.noColumn req.column_index) (.fileSheet file sh.name)] }
  else processRows req sd ck file sh.name df (List.range df.rows.length) st

/-- What `read_excel_safely` finds at a discovered file name. -/
def contentOf (env : Env) (name : String) : FileContent :=
  ((env.entries.find? (fun e => e.name = name)).map
    DirEntry.content).getD .corruptAfterCopy

/-- One source file (lines 248-362): open it through a scratch copy,
record a locked or failed file as an error row and continue, resolve the
sheet selection, scan each selected sheet, and close the workbook in the
`finally` block.  The scratch copy of a successfully opened file is
appended to `temp_files_to_cleanup` and NOT deleted here. -/
def processOneFile (env : Env) (req : SearchRequest)
    (sd : List (String × List String)) (ck : Option Nat)
    (name : String) (st : ScanState) : ScanState :=
  match contentOf env name with
  | .permissionError =>
    let st := { st with locked := st.locked ++ [name] }
    let st := emitE (.status (.lockedMsg name)) st
    { st with errors := st.errors ++ [.error .lockedFile (.file name)] }
  | .corruptAfterCopy =>
    let id := st.nextTemp
    let st := emitE (.copyToTemp id) { st with nextTemp := id + 1 }
    let st := emitE (.deleteTempEarly id) st
    let st := emitE (.status (.fileError name)) st
    { st with errors := st.errors ++ [.error .fileFailed (.file name)] }
  | .ok sheets =>
    let id := st.nextTemp
    let st := emitE (.copyToTemp id)
      { st with nextTemp := id + 1, temps := st.temps ++ [id] }
    let stp := sheetsToProcess req.sheets_mode (sheets.map Sheet.name)
    let st :=
      if stp = [] then
        let st := emitE (.status (.noSheetsIn name)) st
        { st with errors := st.errors ++ [.error .noSheets (.file name)] }
      else
        stp.foldl (fun s shName =>
          match sheets.find? (fun sh => sh.name = shName) with
          | some sh => processOneSheet req sd ck name sh s
          | none => s) st
    emitE (.closeWorkbook name) st

/-! ### The progress computation (`run`, line 243)

`int((i / total_files) * 100)` is evaluated in IEEE binary64 arithmetic:
a correctly rounded division, a correctly rounded multiplication by the
exact constant 100, then truncation toward zero.  Both roundings are
modelled exactly (round to nearest, ties to even, subnormals included),
so the result can fall one below the exact `⌊i·100/total⌋` — e.g. 57
rather than 58 at `i = 29`, `total = 50`.  Overflow cannot occur at
these magnitudes and `total = 0` is unreachable (the empty-directory
abort precedes the loop). -/

/-- Bit length of a natural number (fuel-based; `n` halvings suffice). -/
def bitLenAux : Nat → Nat → Nat
  | 0, _ => 0
  | fuel + 1, n => if n = 0 then 0 else bitLenAux fuel (n / 2) + 1

def bitLen (n : Nat) : Nat := bitLenAux n n

/-- Round the exact quotient `A / B` to the nearest integer, ties to
even. -/
def roundHalfEven (A B : Nat) : Nat :=
  let q := A / B
  let r := A % B
  if 2 * r < B then q
  else if B < 2 * r then q + 1
  else if q % 2 = 0 then q else q + 1

/-- Decide `2 ^ e ≤ a / b` for positive `a`, `b`. -/
def pow2Le (e : Int) (a b : Nat) : Bool :=
  if 0 ≤ e then b * 2 ^ e.toNat ≤ a else b ≤ a * 2 ^ (-e).toNat

/-- The binade of `a / b`: the `e` with `2 ^ e ≤ a / b < 2 ^ (e + 1)`,
for positive `a`, `b`. -/
def ratExp (a b : Nat) : Int :=
  let e0 : Int := (bitLen a : Int) - (bitLen b : Int)
  if pow2Le e0 a b then e0 else e0 - 1

/-- The IEEE binary64 nearest to the rational `a / b` (round to nearest,
ties to even; subnormals handled; overflow not modelled as the engine's
values stay far below it), returned as the exact dyadic `n / 2 ^ s`. -/
def roundRatToDouble (a b : Nat) : Nat × Nat :=
  if a = 0 ∨ b = 0 then (0, 0)
  else
    let e := ratExp a b
    if e < -1022 then (roundHalfEven (a * 2 ^ 1074) b, 1074)
    else
      let k : Int := 52 - e
      let m := if 0 ≤ k then roundHalfEven (a * 2 ^ k.toNat) b
               else roundHalfEven a (b * 2 ^ (-k).toNat)
      if 0 ≤ k then (m, k.toNat) else (m * 2 ^ (-k).toNat, 0)

/-- `int((i / total_files) * 100)` exactly as the program computes it:
round `i / total` to binary64, multiply by 100 and round again, then
truncate toward zero. -/
def pyProgress (i total : Nat) : Nat :=
  let q := roundRatToDouble i total
  let p := roundRatToDouble (q.1 * 100) (2 ^ q.2)
  p.1 / 2 ^ p.2

/-- The file loop (lines 237-362): poll the cancellation flag before each
file — emitting the distinct cancelled status message and stopping when
it is cleared — else announce the file, emit the progress percentage
`int((i / total_files) * 100)` (IEEE binary64 arithmetic, `pyProgress`),
and process the file. -/
def processFiles (env : Env) (req : SearchRequest)
    (sd : List (String × List String)) (ck : Option Nat) (total : Nat) :
    Nat → List String → ScanState → ScanState
  | _, [], st => st
  | i, name :: rest, st =>
    let pr := pollState ck st
    if ¬ pr.1 then emitE (.status .cancelled) pr.2
    else
      let st := emitE (.status (.processingFile name)) pr.2
      let st := emitE (.progress (pyProgress i total)) st
      processFiles env req sd ck total (i + 1) rest (processOneFile env req sd ck name st)

/-- The post-loop report stage (lines 364-414): write the combined table
when any row was produced (with the late output-vs-source re-check and
the writer's failure modes), else finish with the no-matches outcome. -/
def afterLoop (env : Env) (files : List String) (st : ScanState) : ScanState :=
  if st.results ++ st.errors = [] then
    emitE (.finishedE true (.noMatches st.locked)) st
  else
    if files.any (fun f => decide (env.sourceDir ++ [f] = env.outputPath)) then
      emitE (.finishedE false .saveError) st
    else
      match env.writeOutcome with
      | .ok =>
        let st := emitE .wroteOutput st
        let st := emitE (.status (.summaryStatus st.results.length st.errors.length st.locked.length)) st
        emitE (.finishedE true (.normalSummary st.results.length st.errors.length st.locked)) st
      | .permissionError => emitE (.finishedE false .outputLocked) st
      | .otherError => emitE (.finishedE false .saveError) st

/-- The body of `run` up to (but not including) the outer `finally`
cleanup: destination validation, discovery, the no-files and
no-valid-terms pre-flight exits, the uncaught-expansion-exception
critical exit, the file loop and the report stage. -/
def runCore (env : Env) (req : SearchRequest) (ck : Option Nat) : ScanState :=
  let v := validate_output_path env
  let st0 := { initState with events := v.1 }
  if ¬ v.2 then emitE (.finishedE false .pathError) st0
  else
    let st1 := emitE (.status .searchingFiles) st0
    let d := discoverStep env
    let st1 := { st1 with events := st1.events ++ d.1 }
    if d.2 = [] then emitE (.finishedE false .noFiles) st1
    else
      let st2 := emitE (.status (.foundFiles d.2.length)) st1
      match buildSearchData req.search_values with
      | .error _ => emitE (.finishedE false .critical) st2
      | .ok [] => emitE (.finishedE false .noValidTerms) st2
      | .ok sd => afterLoop env d.2 (processFiles env req sd ck d.2.length 0 d.2 st2)

/-- `SearchWorker.run`: the core followed by the outer `finally` cleanup
(lines 420-428), which calls `safe_delete_temp_file` on every entry of
`temp_files_to_cleanup`.  Each tracked scratch copy exists under the
temp root with the scratch name the engine gave it, so the
string-prefix guard of `safe_delete_temp_file` passes and each is
deleted, in list order. -/
def run (env : Env) (req : SearchRequest) (ck : Option Nat) : ScanState :=
  let s := runCore env req ck
  { s with events := s.events ++ s.temps.map Event.deleteTemp }

/-! ### Trace projections -/

def finishedOf (evs : List Event) : List (Bool × FinMsg) :=
  evs.filterMap fun e =>
    match e with
    | .finishedE b m => some (b, m)
    | _ => none

/-- The events a scan emits before its file loop: status messages and
directory listings only. -/
def chatter (e : Event) : Bool :=
  match e with
  | .status _ => true
  | .listDir => true
  | _ => false

/-- Events that are not progress reports. -/
def notProg (e : Event) : Bool :=
  match e with
  | .progress _ => false
  | _ => true

/-! ### Concrete sample scans used by the closed theorems -/

def sampleDir : List String := ["", "data"]

def sampleOut : List String := ["", "out", "result.xlsx"]

/-- A readable workbook named `name` with a single sheet `S`. -/
def okFile (name : String) (rows : List (List (Option String))) : DirEntry :=
  ⟨name, true, .ok [⟨"S", rows⟩]⟩

def mkEnv (entries : List DirEntry) : Env :=
  ⟨sampleDir, entries, .ok, sampleOut, false, .ok⟩

def mkReq (values : List String) : SearchRequest :=
  ⟨values, 1, [1], .first⟩

/-- Two readable workbooks, one matching row each. -/
def envAB : Env := mkEnv [okFile "a.xlsx" [[some "5"]], okFile "b.xlsx" [[some "5"]]]

/-- One readable workbook whose only sheet is completely empty. -/
def envEmptySheet : Env := mkEnv [⟨"a.xlsx", true, .ok [⟨"S", []⟩]⟩]

/-- One readable workbook, one matching row. -/
def envOneRow : Env := mkEnv [okFile "a.xlsx" [[some "5"]]]

/-- Like `envOneRow` but with the output path placed inside the source
directory. -/
def envBadOut : Env := { envOneRow with outputPath := sampleDir ++ ["result.xlsx"] }

/-- The expanded variant list of the term `"5"`. -/
def vs5 : List String := ["5", "5", "5", "5", "5", "5.0", "5"]

/-- The `search_data` built from the single term `"5"`. -/
def sd5 : List (String × List String) := [("5", vs5)]

/-- A request searching column 2 for `"5"`. -/
def req2 : SearchRequest := ⟨["5"], 2, [1], .first⟩

/-- A scratch filesystem: an unrelated file inside the temp root, a
scratch-named spreadsheet outside it (under a sibling whose name shares
a string prefix with the root), and a genuine scratch copy. -/
def fsTmp : Fs :=
  ⟨["/tmp/innocent.txt", "/tmpevil/excel_search_temp_x.xlsx",
    "/tmp/excel_search_temp_ab.xlsx"], ["/tmp", "/tmpevil"]⟩

/-- The events that tell the story of scratch-copy lifetimes: file
announcements, copy creations, workbook closes and deletions. -/
def scratchStory (e : Event) : Bool :=
  match e with
  | .status (.processingFile _) => true
  | .copyToTemp _ => true
  | .deleteTempEarly _ => true
  | .deleteTemp _ => true
  | .closeWorkbook _ => true
  | _ => false

/-! ## Lemmas about the token matcher -/

theorem mem_of_mem_dropWhile {p : Char → Bool} {l : List Char} {c : Char}
    (h : c ∈ l.dropWhile p) : c ∈ l := by
  induction l with
  | nil => simp [List.dropWhile] at h
  | cons a r ih =>
    by_cases hpa : p a
    · rw [List.dropWhile_cons, if_pos hpa] at h
      exact List.mem_cons_of_mem _ (ih h)
    · rw [List.dropWhile_cons, if_neg hpa] at h
      exact h

theorem mem_of_mem_stripChars {bad : List Char} {s : String} {c : Char}
    (h : c ∈ (stripChars bad s).data) : c ∈ s.data := by
  unfold stripChars at h
  rw [show (⟨((s.data.dropWhile (fun c => bad.contains c)).reverse.dropWhile
      (fun c => bad.contains c)).reverse⟩ : String).data
    = ((s.data.dropWhile (fun c => bad.contains c)).reverse.dropWhile
      (fun c => bad.contains c)).reverse from rfl, List.mem_reverse] at h
  have h2 := mem_of_mem_dropWhile h
  rw [List.mem_reverse] at h2
  exact mem_of_mem_dropWhile h2

theorem splitWsAux_no_ws (l : List Char) :
    ∀ (acc : List Char), (∀ c ∈ acc, isWs c = false) →
      ∀ t ∈ splitWsAux l acc, ∀ c ∈ t.data, isWs c = false := by
  induction l with
  | nil =>
    intro acc hacc t ht c hc
    by_cases h0 : acc = []
    · simp [splitWsAux, h0] at ht
    · rw [splitWsAux, if_neg h0] at ht
      rw [List.mem_singleton] at ht
      subst ht
      exact hacc c (List.mem_reverse.mp hc)
  | cons a rest ih =>
    intro acc hacc t ht c hc
    by_cases hw : isWs a
    · by_cases h0 : acc = []
      · rw [splitWsAux, if_pos hw, if_pos h0] at ht
        exact ih [] (by simp) t ht c hc
      · rw [splitWsAux, if_pos hw, if_neg h0] at ht
        rcases List.mem_cons.mp ht with h1 | h1
        · subst h1
          exact hacc c (List.mem_reverse.mp hc)
        · exact ih [] (by simp) t h1 c hc
    · rw [splitWsAux, if_neg hw] at ht
      refine ih (a :: acc) ?_ t ht c hc
      intro d hd
      rcases List.mem_cons.mp hd with h1 | h1
      · subst h1; exact Bool.eq_false_iff.mpr hw
      · exact hacc d h1

theorem parts_no_ws {cell part : String} (hp : part ∈ parts cell) :
    ∀ c ∈ part.data, isWs c = false :=
  splitWsAux_no_ws (normalizeChars cell) [] (by simp) part hp

theorem removeSpaces_eq_self {s : String} (h : ∀ c ∈ s.data, ¬ c = ' ') :
    removeSpaces s = s := by
  unfold removeSpaces
  have he : s.data.filter (fun c => decide (¬ c = ' ')) = s.data := by
    rw [List.filter_eq_self]
    intro a ha
    simpa using h a ha
  rw [he]

theorem stripPunct_no_space {cell part : String} (hp : part ∈ parts cell) :
    ∀ c ∈ (stripPunct part).data, ¬ c = ' ' := by
  intro c hc hsp
  subst hsp
  have h1 : (' ' : Char) ∈ part.data := mem_of_mem_stripChars hc
  have h2 := parts_no_ws hp ' ' h1
  simp [isWs, pyWs] at h2

theorem removeSpaces_stripPunct {cell part : String} (hp : part ∈ parts cell) :
    removeSpaces (stripPunct part) = stripPunct part :=
  removeSpaces_eq_self (stripPunct_no_space hp)

theorem tokensOf_empty : tokensOf "" = [] := rfl

/-- The central matcher characterisation: `is_exact_match` holds exactly
when the variant is literally one of the cell's delimiter-separated,
punctuation-trimmed tokens. -/
theorem is_exact_match_iff_mem (cell v : String) :
    is_exact_match cell v = true ↔ v ∈ tokensOf cell := by
  unfold is_exact_match
  by_cases hc : cell = "" ∨ v = ""
  · rw [if_pos hc]
    simp only [Bool.false_eq_true, false_iff]
    intro hv
    have hne : v ≠ "" := by
      unfold tokensOf at hv
      exact of_decide_eq_true (List.mem_filter.mp hv).2
    rcases hc with hc | hc
    · subst hc
      rw [tokensOf_empty] at hv
      exact (List.not_mem_nil v) hv
    · exact hne hc
  · rw [if_neg hc]
    rw [List.any_eq_true]
    constructor
    · rintro ⟨part, hp, hf⟩
      simp only at hf
      by_cases hpc : stripPunct part = ""
      · rw [if_pos hpc] at hf
        exact absurd hf (by simp)
      · rw [if_neg hpc] at hf
        rw [removeSpaces_stripPunct hp] at hf
        have : stripPunct part = v := by
          rcases Bool.or_eq_true_iff.mp hf with h | h
          · exact of_decide_eq_true h
          · exact of_decide_eq_true h
        subst this
        unfold tokensOf
        refine List.mem_filter.mpr ⟨List.mem_map.mpr ⟨part, hp, rfl⟩, ?_⟩
        exact decide_eq_true hpc
    · intro hv
      unfold tokensOf at hv
      have hmem := List.mem_filter.mp hv
      have hne : v ≠ "" := of_decide_eq_true hmem.2
      rcases List.mem_map.mp hmem.1 with ⟨part, hp, hpv⟩
      refine ⟨part, hp, ?_⟩
      simp only
      rw [hpv, if_neg hne]
      simp

theorem any_congr_bool {α} {l : List α} {f g : α → Bool}
    (h : ∀ x ∈ l, f x = g x) : l.any f = l.any g := by
  induction l with
  | nil => rfl
  | cons a r ih =>
    rw [List.any_cons, List.any_cons, h a (List.mem_cons_self a r),
      ih (fun x hx => h x (List.mem_cons_of_mem a hx))]

/-! ## Lemmas about the scan engine -/

/-- Events that create no scratch copy. -/
def noCopy (e : Event) : Bool :=
  match e with
  | .copyToTemp _ => false
  | _ => true

/-- Events a sheet scan may emit. -/
def mild (e : Event) : Bool :=
  match e with
  | .status _ => true
  | .readSheet _ _ => true
  | _ => false

theorem finishedOf_append (a b : List Event) :
    finishedOf (a ++ b) = finishedOf a ++ finishedOf b :=
  List.filterMap_append a b _

theorem chatter_noCopy {e : Event} (h : chatter e = true) : noCopy e = true := by
  cases e <;> simp_all [chatter, noCopy]

theorem mild_notProg {e : Event} (h : mild e = true) : notProg e = true := by
  cases e <;> simp_all [mild, notProg]

theorem mild_noCopy {e : Event} (h : mild e = true) : noCopy e = true := by
  cases e <;> simp_all [mild, noCopy]

theorem finishedOf_eq_nil_of_chatter {evs : List Event}
    (h : evs.all chatter = true) : finishedOf evs = [] := by
  rw [finishedOf, List.filterMap_eq_nil_iff]
  intro e he
  have := List.all_eq_true.mp h e he
  cases e <;> simp_all [chatter]

theorem copy_not_mem_of_noCopy {evs : List Event} {id : Nat}
    (h : evs.all noCopy = true) : Event.copyToTemp id ∉ evs := by
  intro hmem
  have := List.all_eq_true.mp h _ hmem
  simp [noCopy] at this

theorem scanEntries_chatter (l : List DirEntry) :
    (scanEntries l).1.all chatter = true := by
  induction l with
  | nil => rfl
  | cons e rest ih =>
    rw [scanEntries]
    by_cases h1 : startsWithTilde e.name
    · simp only [if_pos h1, List.all_cons]
      exact by simp [chatter, ih]
    · rw [if_neg h1]
      by_cases h2 : e.isFile <;> by_cases h3 : extOkName e.name <;> simp [h2, h3, ih]

theorem discoverStep_chatter (env : Env) :
    (discoverStep env).1.all chatter = true := by
  rw [discoverStep]
  cases env.dirState <;> simp [chatter, scanEntries_chatter]

theorem validate_chatter (env : Env) :
    (validate_output_path env).1.all chatter = true := by
  rw [validate_output_path]
  by_cases h1 : env.outputPath.dropLast = env.sourceDir
  · simp [h1]
  · rw [if_neg h1]
    by_cases h2 : env.outputExists
    · simp only [if_pos h2]
      exact discoverStep_chatter env
    · simp [h2]

/-- The row loop emits no events and touches no scratch state: it only
appends result rows and advances the poll counter. -/
theorem processRows_frame (req : SearchRequest) (sd : List (String × List String))
    (ck : Option Nat) (file sheet : String) (df : Df) :
    ∀ (idxs : List Nat) (st : ScanState),
      (processRows req sd ck file sheet df idxs st).events = st.events ∧
      (processRows req sd ck file sheet df idxs st).temps = st.temps ∧
      (processRows req sd ck file sheet df idxs st).nextTemp = st.nextTemp ∧
      (processRows req sd ck file sheet df idxs st).errors = st.errors ∧
      (processRows req sd ck file sheet df idxs st).locked = st.locked := by
  intro idxs
  induction idxs with
  | nil => intro st; exact ⟨rfl, rfl, rfl, rfl, rfl⟩
  | cons i rest ih =>
    intro st
    rw [processRows]
    by_cases hb : running ck st.polls
    · simp only [pollState, hb, not_true, ite_false]
      cases hcell : dfCell df i (req.column_index - 1)
      · simp only [hcell]
        exact ih _
      · simp only [hcell]
        exact ih _
    · simp [pollState, hb]

/-- One sheet appends only status/readSheet events and leaves the scratch
state unchanged. -/
theorem processOneSheet_frame (req : SearchRequest) (sd : List (String × List String))
    (ck : Option Nat) (file : String) (sh : Sheet) (st : ScanState) :
    ∃ evs, (processOneSheet req sd ck file sh st).events = st.events ++ evs ∧
      evs.all mild = true ∧
      (processOneSheet req sd ck file sh st).temps = st.temps ∧
      (processOneSheet req sd ck file sh st).nextTemp = st.nextTemp ∧
      (processOneSheet req sd ck file sh st).locked = st.locked := by
  rw [processOneSheet]
  by_cases h1 : dfEmpty ⟨sh.rows⟩
  · refine ⟨[.readSheet file sh.name], ?_⟩
    simp [h1, emitE, mild]
  · rw [if_neg h1]
    by_cases h2 : dfNumCols ⟨sh.rows⟩ ≤ req.column_index - 1
    · refine ⟨[.readSheet file sh.name, .status (.noColumnIn file sh.name req.column_index)], ?_⟩
      simp [h2, emitE, mild]
    · rw [if_neg h2]
      have hf := processRows_frame req sd ck file sh.name ⟨sh.rows⟩
        (List.range sh.rows.length) (emitE (.readSheet file sh.name) st)
      refine ⟨[.readSheet file sh.name], ?_⟩
      simp only [emitE] at hf
      exact ⟨hf.1, by simp [mild], hf.2.1, hf.2.2.1, hf.2.2.2.2⟩

/-- The sheet fold of one file appends only mild events and leaves the
scratch state unchanged. -/
theorem foldSheets_frame (req : SearchRequest) (sd : List (String × List String))
    (ck : Option Nat) (name : String) (sheets : List Sheet) :
    ∀ (stp : List String) (st : ScanState),
      ∃ evs,
        (stp.foldl (fun s shName =>
          match sheets.find? (fun sh => sh.name = shName) with
          | some sh => processOneSheet req sd ck name sh s
          | none => s) st).events = st.events ++ evs ∧
        evs.all mild = true ∧
        (stp.foldl (fun s shName =>
          match sheets.find? (fun sh => sh.name = shName) with
          | some sh => processOneSheet req sd ck name sh s
          | none => s) st).temps = st.temps := by
  intro stp
  induction stp with
  | nil => intro st; exact ⟨[], by simp⟩
  | cons shName rest ih =>
    intro st
    rw [List.foldl_cons]
    cases hfind : sheets.find? (fun sh => sh.name = shName) with
    | none =>
      simp only [hfind]
      exact ih st
    | some sh =>
      simp only [hfind]
      obtain ⟨evs1, he1, hm1, ht1, _, _⟩ := processOneSheet_frame req sd ck name sh st
      obtain ⟨evs2, he2, hm2, ht2⟩ := ih (processOneSheet req sd ck name sh st)
      refine ⟨evs1 ++ evs2, ?_, ?_, ?_⟩
      · rw [he2, he1, List.append_assoc]
      · rw [List.all_append, hm1, hm2]
        rfl
      · rw [ht2, ht1]

/-- Scratch-accounting invariant: every scratch copy recorded in the
event list was either already deleted inside `read_excel_safely`'s error
handler, or is still tracked in `temp_files_to_cleanup`. -/
def invET (evs : List Event) (tmps : List Nat) : Prop :=
  ∀ id, Event.copyToTemp id ∈ evs → Event.deleteTempEarly id ∈ evs ∨ id ∈ tmps

theorem invET_extend {E : List Event} {T : List Nat} {evs : List Event} {T2 : List Nat}
    (h : invET E T) (hevs : evs.all noCopy = true)
    (hT : ∀ id, id ∈ T → id ∈ T2) : invET (E ++ evs) T2 := by
  intro id hid
  rcases List.mem_append.mp hid with h1 | h1
  · rcases h id h1 with h2 | h2
    · exact Or.inl (List.mem_append_left _ h2)
    · exact Or.inr (hT id h2)
  · exact absurd h1 (copy_not_mem_of_noCopy hevs)
theorem all_mild_notProg {evs : List Event} (h : evs.all mild = true) :
    evs.all notProg = true := by
  rw [List.all_eq_true] at h ⊢
  exact fun e he => mild_notProg (h e he)

theorem all_mild_noCopy {evs : List Event} (h : evs.all mild = true) :
    evs.all noCopy = true := by
  rw [List.all_eq_true] at h ⊢
  exact fun e he => mild_noCopy (h e he)

/-- One file appends no progress events, and preserves the
scratch-accounting invariant. -/
theorem processOneFile_spec (env : Env) (req : SearchRequest)
    (sd : List (String × List String)) (ck : Option Nat)
    (name : String) (st : ScanState) :
    (∃ evs, (processOneFile env req sd ck name st).events = st.events ++ evs ∧
      evs.all notProg = true) ∧
    (invET st.events st.temps →
      invET (processOneFile env req sd ck name st).events
            (processOneFile env req sd ck name st).temps) := by
  cases hc : contentOf env name with
  | permissionError =>
    simp only [processOneFile, hc, emitE]
    constructor
    · exact ⟨[.status (.lockedMsg name)], rfl, by simp [notProg]⟩
    · intro h id hid
      simp only [List.mem_append] at hid
      rcases hid with h1 | h1
      · rcases h id h1 with h2 | h2
        · exact Or.inl (List.mem_append_left _ h2)
        · exact Or.inr h2
      · simp at h1
  | corruptAfterCopy =>
    simp only [processOneFile, hc, emitE]
    constructor
    · refine ⟨[.copyToTemp st.nextTemp, .deleteTempEarly st.nextTemp,
        .status (.fileError name)], ?_, by simp [notProg]⟩
      simp
    · intro h id hid
      simp only [List.append_assoc, List.mem_append, List.mem_singleton] at hid
      rcases hid with h1 | h1 | h1 | h1
      · rcases h id h1 with h2 | h2
        · refine Or.inl ?_
          simp only [List.append_assoc, List.mem_append]
          exact Or.inl h2
        · exact Or.inr h2
      · have heq : id = st.nextTemp := by
          simpa using h1
        subst heq
        refine Or.inl ?_
        simp [List.mem_append]
      · simp at h1
      · simp at h1
  | ok sheets =>
    simp only [processOneFile, hc, emitE]
    by_cases hstp : sheetsToProcess req.sheets_mode (sheets.map Sheet.name) = []
    · rw [if_pos hstp]
      constructor
      · refine ⟨[.copyToTemp st.nextTemp, .status (.noSheetsIn name),
          .closeWorkbook name], ?_, by simp [notProg]⟩
        simp
      · intro h id hid
        simp only [List.append_assoc, List.mem_append, List.mem_singleton] at hid
        rcases hid with h1 | h1 | h1 | h1
        · rcases h id h1 with h2 | h2
          · refine Or.inl ?_
            simp only [List.append_assoc, List.mem_append]
            exact Or.inl h2
          · exact Or.inr (List.mem_append_left _ h2)
        · have heq : id = st.nextTemp := by
            simpa using h1
          subst heq
          refine Or.inr ?_
          simp [List.mem_append]
        · simp at h1
        · simp at h1
    · rw [if_neg hstp]
      obtain ⟨evs, he, hm, ht⟩ := foldSheets_frame req sd ck name sheets
        (sheetsToProcess req.sheets_mode (sheets.map Sheet.name))
        { st with
            events := st.events ++ [Event.copyToTemp st.nextTemp],
            temps := st.temps ++ [st.nextTemp],
            nextTemp := st.nextTemp + 1 }
      constructor
      · refine ⟨[Event.copyToTemp st.nextTemp] ++ evs ++ [Event.closeWorkbook name], ?_, ?_⟩
        · rw [he]
          simp
        · rw [List.all_append, List.all_append]
          simp only [Bool.and_eq_true]
          exact ⟨⟨by simp [notProg], all_mild_notProg hm⟩, by simp [notProg]⟩
      · intro h id hid
        rw [he] at hid
        rw [ht]
        simp only [List.append_assoc, List.mem_append, List.mem_singleton] at hid
        rcases hid with h1 | h1 | h1 | h1
        · rcases h id h1 with h2 | h2
          · refine Or.inl ?_
            rw [he]
            simp only [List.append_assoc, List.mem_append]
            exact Or.inl h2
          · exact Or.inr (List.mem_append_left _ h2)
        · have heq : id = st.nextTemp := by
            simpa using h1
          subst heq
          refine Or.inr ?_
          simp [List.mem_append]
        · exact absurd h1 (copy_not_mem_of_noCopy (all_mild_noCopy hm))
        · simp at h1

theorem all_chatter_noCopy {evs : List Event} (h : evs.all chatter = true) :
    evs.all noCopy = true := by
  rw [List.all_eq_true] at h ⊢
  exact fun e he => chatter_noCopy (h e he)

/-- A cleared cancellation flag at a file boundary stops the loop at
once: the only effect is the cancelled status message (and the consumed
poll); nothing accumulated is discarded. -/
theorem processFiles_stop (env : Env) (req : SearchRequest)
    (sd : List (String × List String)) (ck : Option Nat) (total i : Nat)
    (name : String) (rest : List String) (st : ScanState)
    (h : running ck st.polls = false) :
    processFiles env req sd ck total i (name :: rest) st =
      emitE (.status .cancelled) { st with polls := st.polls + 1 } := by
  rw [processFiles]
  simp [pollState, h]

/-- An event list with no scratch-copy events trivially satisfies the
scratch-accounting invariant. -/
theorem invET_of_noCopy {evs : List Event} {T : List Nat}
    (h : evs.all noCopy = true) : invET evs T :=
  fun _ hid => absurd hid (copy_not_mem_of_noCopy h)

/-- The file loop preserves the scratch-accounting invariant. -/
theorem processFiles_inv (env : Env) (req : SearchRequest)
    (sd : List (String × List String)) (ck : Option Nat) (total : Nat) :
    ∀ (names : List String) (i : Nat) (st : ScanState),
      invET st.events st.temps →
      invET (processFiles env req sd ck total i names st).events
            (processFiles env req sd ck total i names st).temps := by
  intro names
  induction names with
  | nil =>
    intro i st h
    simpa [processFiles] using h
  | cons name rest ih =>
    intro i st h
    by_cases hb : running ck st.polls
    · rw [processFiles]
      simp only [pollState, hb, not_true, ite_false]
      refine ih (i + 1) _ ((processOneFile_spec env req sd ck name _).2 ?_)
      simp only [emitE]
      rw [List.append_assoc]
      exact invET_extend h (by simp [noCopy]) (fun id hid => hid)
    · rw [processFiles]
      simp only [pollState]
      rw [if_pos hb]
      simp only [emitE]
      exact invET_extend h (by simp [noCopy]) (fun id hid => hid)

/-- The report stage appends neither scratch-copy nor progress events,
and leaves the cleanup list unchanged. -/
theorem afterLoop_frame (env : Env) (files : List String) (st : ScanState) :
    ∃ evs, (afterLoop env files st).events = st.events ++ evs ∧
      evs.all noCopy = true ∧ evs.all notProg = true ∧
      (afterLoop env files st).temps = st.temps := by
  rw [afterLoop]
  by_cases h1 : st.results ++ st.errors = []
  · rw [if_pos h1]
    exact ⟨[.finishedE true (.noMatches st.locked)], rfl,
      by simp [noCopy], by simp [notProg], rfl⟩
  · rw [if_neg h1]
    by_cases h2 : files.any (fun f => decide (env.sourceDir ++ [f] = env.outputPath))
    · rw [if_pos h2]
      exact ⟨[.finishedE false .saveError], rfl, by simp [noCopy], by simp [notProg], rfl⟩
    · rw [if_neg h2]
      cases hw : env.writeOutcome with
      | ok =>
        refine ⟨[.wroteOutput,
          .status (.summaryStatus st.results.length st.errors.length st.locked.length),
          .finishedE true (.normalSummary st.results.length st.errors.length st.locked)],
          ?_, by simp [noCopy], by simp [notProg], rfl⟩
        simp [emitE]
      | permissionError =>
        exact ⟨[.finishedE false .outputLocked], rfl, by simp [noCopy], by simp [notProg], rfl⟩
      | otherError =>
        exact ⟨[.finishedE false .saveError], rfl, by simp [noCopy], by simp [notProg], rfl⟩

/-- A failed destination validation short-circuits `run` before anything
else happens. -/
theorem runCore_pathError (env : Env) (req : SearchRequest) (ck : Option Nat)
    (h : (validate_output_path env).2 = false) :
    runCore env req ck =
      emitE (.finishedE false .pathError) { initState with events := (validate_output_path env).1 } := by
  rw [runCore]
  split
  · rfl
  · next hc =>
      exact absurd (by simpa using hc) (by simp [h])

/-- With valid destination, discovered files, and an expansion that
produces no search pairs, the scan ends with the no-valid-terms failure;
everything before it is chatter (and includes the directory listing),
and no scratch copy exists. -/
theorem runCore_noValidTerms (env : Env) (req : SearchRequest) (ck : Option Nat)
    (hv : (validate_output_path env).2 = true)
    (hd : (discoverStep env).2 ≠ [])
    (hb : buildSearchData req.search_values = .ok []) :
    (runCore env req ck).events =
      (((validate_output_path env).1 ++ [.status .searchingFiles]) ++ (discoverStep env).1
        ++ [.status (.foundFiles (discoverStep env).2.length)]) ++ [.finishedE false .noValidTerms] ∧
    (runCore env req ck).temps = [] := by
  rw [runCore]
  rw [if_neg (by simp [hv])]
  rw [if_neg hd]
  rw [hb]
  constructor
  · simp [emitE, initState, List.append_assoc]
  · rfl

/-- The scratch-accounting invariant holds of every completed scan core. -/
theorem runCore_inv (env : Env) (req : SearchRequest) (ck : Option Nat) :
    invET (runCore env req ck).events (runCore env req ck).temps := by
  rw [runCore]
  by_cases hv : (validate_output_path env).2
  · rw [if_neg (by simp [hv])]
    by_cases hd : (discoverStep env).2 = []
    · rw [if_pos hd]
      refine invET_of_noCopy ?_
      simp only [emitE, initState, List.all_append]
      simp [all_chatter_noCopy (validate_chatter env),
        all_chatter_noCopy (discoverStep_chatter env), noCopy]
    · rw [if_neg hd]
      cases hsd : buildSearchData req.search_values with
      | error e =>
        refine invET_of_noCopy ?_
        simp only [emitE, initState, List.all_append]
        simp [all_chatter_noCopy (validate_chatter env),
          all_chatter_noCopy (discoverStep_chatter env), noCopy]
      | ok sd =>
        cases sd with
        | nil =>
          refine invET_of_noCopy ?_
          simp only [emitE, initState, List.all_append]
          simp [all_chatter_noCopy (validate_chatter env),
            all_chatter_noCopy (discoverStep_chatter env), noCopy]
        | cons p sd' =>
          obtain ⟨evs, he, hnc, _, ht⟩ := afterLoop_frame env (discoverStep env).2
            (processFiles env req (p :: sd') ck (discoverStep env).2.length 0 (discoverStep env).2
              (emitE (.status (.foundFiles (discoverStep env).2.length))
                { emitE (.status .searchingFiles) { initState with events := (validate_output_path env).1 } with
                    events := (emitE (.status .searchingFiles)
                      { initState with events := (validate_output_path env).1 }).events ++ (discoverStep env).1 }))
          rw [he, ht]
          refine invET_extend ?_ hnc (fun id hid => hid)
          refine processFiles_inv env req (p :: sd') ck _ _ _ _ ?_
          refine invET_of_noCopy ?_
          simp only [emitE, initState, List.all_append]
          simp [all_chatter_noCopy (validate_chatter env),
            all_chatter_noCopy (discoverStep_chatter env), noCopy]
  · rw [if_pos (by simpa using hv)]
    refine invET_of_noCopy ?_
    simp only [emitE, initState, List.all_append]
    simp [all_chatter_noCopy (validate_chatter env), noCopy]

theorem run_events (env : Env) (req : SearchRequest) (ck : Option Nat) :
    (run env req ck).events =
      (runCore env req ck).events ++ (runCore env req ck).temps.map Event.deleteTemp := rfl

theorem run_temps (env : Env) (req : SearchRequest) (ck : Option Nat) :
    (run env req ck).temps = (runCore env req ck).temps := rfl

theorem copy_not_mem_map_deleteTemp {l : List Nat} {id : Nat} :
    Event.copyToTemp id ∉ l.map Event.deleteTemp := by
  intro h
  rcases List.mem_map.mp h with ⟨x, _, hx⟩
  exact Event.noConfusion hx

theorem finishedOf_chatter {evs : List Event} (h : evs.all chatter = true) :
    finishedOf evs = [] :=
  finishedOf_eq_nil_of_chatter h

theorem finishedOf_status (m : Msg) : finishedOf [Event.status m] = [] := rfl

theorem listDir_mem_discover {env : Env} (h : env.dirState = .ok) :
    Event.listDir ∈ (discoverStep env).1 := by
  rw [discoverStep, h]
  exact List.mem_cons_self _ _

/-! ## The claims -/

/-- Claim C1 (confirmed).  For every cell text and variant list, the
matcher reports a match exactly when some delimiter-separated,
punctuation-trimmed token of the cell equals one of the variants; and on
the claim's own examples: a substring-only occurrence (`"1234"` inside
`"12345"`) never matches, cell `"5.0"` matches term `"5"`, and cell
`"5,5.0,abc"` matches both `"5"` and `"5.0"`. -/
theorem C1_whole_token_matching :
    (∀ (cell : String) (vs : List String),
      cellMatches cell vs = true ↔ ∃ tok ∈ tokensOf cell, tok ∈ vs) ∧
    termMatchesCell "12345" "1234" = false ∧
    termMatchesCell "5.0" "5" = true ∧
    termMatchesCell "5,5.0,abc" "5" = true ∧
    termMatchesCell "5,5.0,abc" "5.0" = true := by
  refine ⟨?_, by decide, by decide, by decide, by decide⟩
  intro cell vs
  rw [cellMatches, List.any_eq_true]
  constructor
  · rintro ⟨v, hv, hm⟩
    exact ⟨v, (is_exact_match_iff_mem cell v).mp hm, hv⟩
  · rintro ⟨tok, ht, htv⟩
    exact ⟨tok, htv, (is_exact_match_iff_mem cell tok).mpr ht⟩

/-- Witness for C1: the characterisation applied at a concrete cell and
variant list. -/
theorem C1_whole_token_matching_witness :
    cellMatches "5,5.0,abc" ["5"] = true ∧
    ∃ tok ∈ tokensOf "5,5.0,abc", tok ∈ ["5"] := by
  have h := C1_whole_token_matching.1 "5,5.0,abc" ["5"]
  have hm : cellMatches "5,5.0,abc" ["5"] = true := by decide
  exact ⟨hm, h.mp hm⟩

/-- Claim C2 (code bug).  The cleanup that actually deletes scratch files
(`safe_delete_temp_file`) checks only existence and a character-wise
string-prefix location test: it deletes a file inside the temp root that
carries neither the scratch-naming marker nor a spreadsheet extension,
and even a file outside the temp root whose path merely shares a string
prefix with it.  The predicate `is_safe_to_delete` implements exactly
the three guards the claim describes — but no caller invokes it. -/
theorem C2_deletion_guard_gap :
    safe_delete_temp_file fsTmp "/tmp" "/tmp/innocent.txt" = true ∧
    is_safe_to_delete fsTmp "/tmp" "/tmp/innocent.txt" = false ∧
    safe_delete_temp_file fsTmp "/tmp" "/tmpevil/excel_search_temp_x.xlsx" = true ∧
    is_safe_to_delete fsTmp "/tmp" "/tmpevil/excel_search_temp_x.xlsx" = false ∧
    is_safe_to_delete fsTmp "/tmp" "/tmp/excel_search_temp_ab.xlsx" = true := by
  decide

/-- Counterexample to claim C3 as stated: in a two-file scan, the scratch
copy (id 0) backing the first file is deleted only after the second file
has been announced, copied and processed — its lifetime extends past the
processing of its source file. -/
theorem C3_scratch_lifetime_counterexample :
    ((run envAB (mkReq ["5"]) none).events.filter scratchStory) =
      [.status (.processingFile "a.xlsx"), .copyToTemp 0, .closeWorkbook "a.xlsx",
       .status (.processingFile "b.xlsx"), .copyToTemp 1, .closeWorkbook "b.xlsx",
       .deleteTemp 0, .deleteTemp 1] := by
  decide

/-- Claim C3 as amended: every scratch copy a scan creates is released by
the time `run` terminates — immediately inside the open-failure handler,
or in the terminal cleanup that runs on every exit path — though not
before the engine moves to the next file. -/
theorem C3_scratch_deleted_by_scan_end :
    ∀ (env : Env) (req : SearchRequest) (ck : Option Nat) (id : Nat),
      Event.copyToTemp id ∈ (run env req ck).events →
      Event.deleteTempEarly id ∈ (run env req ck).events ∨
      Event.deleteTemp id ∈ (run env req ck).events := by
  intro env req ck id hid
  rw [run_events] at hid ⊢
  rcases List.mem_append.mp hid with h1 | h1
  · rcases runCore_inv env req ck id h1 with h2 | h2
    · exact Or.inl (List.mem_append_left _ h2)
    · exact Or.inr (List.mem_append_right _ (List.mem_map_of_mem _ h2))
  · exact absurd h1 copy_not_mem_map_deleteTemp

/-- Witness for C3: the deletion guarantee applied to the first scratch
copy of a concrete two-file scan. -/
theorem C3_scratch_deleted_by_scan_end_witness :
    Event.deleteTempEarly 0 ∈ (run envAB (mkReq ["5"]) none).events ∨
    Event.deleteTemp 0 ∈ (run envAB (mkReq ["5"]) none).events :=
  C3_scratch_deleted_by_scan_end envAB (mkReq ["5"]) none 0 (by decide)

/-- Counterexample to claim C4 as stated: in a scan cancelled after the
first of two files, the terminal `finished` notification carries the
normal success summary of the partial results — there is no distinct
cancelled-by-user terminal message; the cancelled-by-user text is only a
status message. -/
theorem C4_cancellation_counterexample :
    Event.status Msg.cancelled ∈ (run envAB (mkReq ["5"]) (some 2)).events ∧
    finishedOf (run envAB (mkReq ["5"]) (some 2)).events =
      [(true, .normalSummary 1 0 [])] := by
  decide

/-- Claim C4 as amended: when the cancellation flag is found cleared at a
file boundary, the loop stops at once keeping everything accumulated;
the distinct cancelled-by-user message goes out as a status message,
further files are never announced, accumulated rows are kept and
reported, and `finished` carries the normal summary over the partial
results. -/
theorem C4_cancellation_behavior :
    (∀ (env : Env) (req : SearchRequest) (sd : List (String × List String))
       (ck : Option Nat) (total i : Nat) (name : String) (rest : List String)
       (st : ScanState),
      running ck st.polls = false →
      processFiles env req sd ck total i (name :: rest) st =
        emitE (.status .cancelled) { st with polls := st.polls + 1 }) ∧
    Event.status Msg.cancelled ∈ (run envAB (mkReq ["5"]) (some 2)).events ∧
    Event.status (Msg.processingFile "b.xlsx") ∉ (run envAB (mkReq ["5"]) (some 2)).events ∧
    (run envAB (mkReq ["5"]) (some 2)).results =
      [.result "5" ["5"] (.fileSheet "a.xlsx" "S")] ∧
    finishedOf (run envAB (mkReq ["5"]) (some 2)).events =
      [(true, .normalSummary 1 0 [])] := by
  refine ⟨processFiles_stop, by decide, by decide, by decide, by decide⟩

/-- Witness for C4: the stop-at-once equation applied at a concrete
cancelled state. -/
theorem C4_cancellation_behavior_witness :
    processFiles envAB (mkReq ["5"]) sd5 (some 0) 2 0 ("a.xlsx" :: ["b.xlsx"]) initState =
      emitE (.status .cancelled) { initState with polls := initState.polls + 1 } :=
  C4_cancellation_behavior.1 envAB (mkReq ["5"]) sd5 (some 0) 2 0 "a.xlsx" ["b.xlsx"]
    initState (by decide)

/-- Counterexample to claim C6 as stated: the term `"1\t2"` (tab inside)
gets no whitespace-removed variant `"12"` — `replace(' ', '')` removes
only spaces; and with only empty-after-trim terms, the directory listing
(file I/O) happens before the no-valid-terms abort. -/
theorem C6_expansion_counterexample :
    expandTerm "1\t2" = .ok (some ("1\t2", ["1\t2", "1\t2", "1\t2", "1\t2"])) ∧
    (run envOneRow (mkReq ["   "]) none).events =
      [.status .searchingFiles, .listDir, .status (.foundFiles 1),
       .finishedE false .noValidTerms] := by
  exact ⟨rfl, by decide⟩

/-- Claim C6 as amended: a term whose expansion completes always yields
the trimmed term, its lowercase, uppercase and space-removed (U+0020
only) forms, plus the integer-truncated and canonical decimal forms when
the term parses as a finite decimal; empty-after-trim terms are silently
dropped; and when every term is dropped, the scan aborts with the
no-valid-terms failure after destination validation and directory
discovery (so after listing I/O) but before any file is copied or
opened. -/
theorem C6_expansion_amended :
    (∀ (t sv : String) (vs : List String), expandTerm t = .ok (some (sv, vs)) →
      sv = pyStrip t ∧ sv ∈ vs ∧ pyLower sv ∈ vs ∧ pyUpper sv ∈ vs ∧
      removeSpaces sv ∈ vs ∧
      ∀ d, pyFloat t = some (.finite d) →
        pyIntStr (pyTrunc d) ∈ vs ∧ pyFloatStr d ∈ vs) ∧
    (∀ t, pyStrip t = "" → expandTerm t = .ok none) ∧
    (∀ (v : String) (rest : List String), pyStrip v = "" →
      buildSearchData (v :: rest) = buildSearchData rest) ∧
    (∀ (env : Env) (req : SearchRequest) (ck : Option Nat),
      (validate_output_path env).2 = true → (discoverStep env).2 ≠ [] →
      buildSearchData req.search_values = .ok [] →
      finishedOf (run env req ck).events = [(false, .noValidTerms)] ∧
      (env.dirState = .ok → Event.listDir ∈ (run env req ck).events) ∧
      ∀ id, Event.copyToTemp id ∉ (run env req ck).events) := by
  refine ⟨?_, ?_, ?_, ?_⟩
  · intro t sv vs h
    rw [expandTerm] at h
    by_cases h0 : pyStrip t = ""
    · rw [if_pos h0] at h
      simp at h
    · rw [if_neg h0] at h
      cases hn : numericVariants t with
      | error e =>
        rw [hn] at h
        simp at h
      | ok nums =>
        rw [hn] at h
        simp only [Except.ok.injEq, Option.some.injEq, Prod.mk.injEq] at h
        obtain ⟨hsv, hvs⟩ := h
        subst hsv
        subst hvs
        refine ⟨rfl, by simp, by simp, by simp, by simp, ?_⟩
        intro d hd
        rw [numericVariants, hd] at hn
        simp only [Except.ok.injEq] at hn
        subst hn
        constructor
        · simp
        · simp
  · intro t h
    rw [expandTerm, if_pos h]
  · intro v rest h
    rw [buildSearchData, expandTerm, if_pos h]
  · intro env req ck hv hd hb
    have hcore := runCore_noValidTerms env req ck hv hd hb
    have hev : (run env req ck).events = (runCore env req ck).events := by
      rw [run_events, hcore.2]
      simp
    refine ⟨?_, ?_, ?_⟩
    · rw [hev, hcore.1]
      simp only [finishedOf_append, finishedOf_chatter (validate_chatter env),
        finishedOf_chatter (discoverStep_chatter env), finishedOf_status,
        List.append_nil, List.nil_append]
      rfl
    · intro hok
      rw [hev, hcore.1]
      simp only [List.append_assoc, List.mem_append]
      have := listDir_mem_discover hok
      tauto
    · intro id
      rw [hev, hcore.1]
      intro hmem
      simp only [List.append_assoc, List.mem_append] at hmem
      rcases hmem with h1 | h1 | h1 | h1 | h1
      · exact copy_not_mem_of_noCopy (all_chatter_noCopy (validate_chatter env)) h1
      · simp at h1
      · exact copy_not_mem_of_noCopy (all_chatter_noCopy (discoverStep_chatter env)) h1
      · simp at h1
      · simp at h1

/-- Witness for C6: the amended expansion facts at the concrete term
`"5"`, and the no-valid-terms abort of a concrete all-blank request. -/
theorem C6_expansion_amended_witness :
    ("5" ∈ vs5 ∧ pyFloatStr ⟨5, 0⟩ ∈ vs5) ∧
    expandTerm "   " = .ok none ∧
    finishedOf (run envOneRow (mkReq ["   "]) none).events = [(false, .noValidTerms)] := by
  have ha := C6_expansion_amended.1 "5" "5" vs5 rfl
  have hb := C6_expansion_amended.2.1 "   " rfl
  have hd := C6_expansion_amended.2.2.2 envOneRow (mkReq ["   "]) none
    (by decide) (by decide) rfl
  exact ⟨⟨ha.2.1, (ha.2.2.2.2.2 ⟨5, 0⟩ rfl).2⟩, hb, hd.1⟩

/-- Counterexample to claim C7 as stated: a completely empty sheet has
column count 0, smaller than search column 1, yet the scan emits zero
ErrorRows for it (the `df.empty` check skips the sheet before the
column-bounds check). -/
theorem C7_empty_sheet_counterexample :
    (run envEmptySheet (mkReq ["5"]) none).errors = [] ∧
    (run envEmptySheet (mkReq ["5"]) none).results = [] ∧
    finishedOf (run envEmptySheet (mkReq ["5"]) none).events =
      [(true, .noMatches [])] := by
  decide

/-- Claim C7 as amended: for every non-empty sheet (at least one row and
one column) whose column count is smaller than the 1-based search
column, the scan emits exactly one ErrorRow for that sheet, no
ResultRow, and only the read/diagnostic events — leaving the rest of the
scan state untouched, so scanning continues with the next sheet/file. -/
theorem C7_column_bounds_amended :
    ∀ (req : SearchRequest) (sd : List (String × List String)) (ck : Option Nat)
      (file : String) (sh : Sheet) (st : ScanState),
      sh.rows ≠ [] → dfNumCols ⟨sh.rows⟩ ≠ 0 →
      dfNumCols ⟨sh.rows⟩ ≤ req.column_index - 1 →
      (processOneSheet req sd ck file sh st).errors =
        st.errors ++ [.error (.noColumn req.column_index) (.fileSheet file sh.name)] ∧
      (processOneSheet req sd ck file sh st).results = st.results ∧
      (processOneSheet req sd ck file sh st).events =
        st.events ++ [.readSheet file sh.name,
          .status (.noColumnIn file sh.name req.column_index)] := by
  intro req sd ck file sh st hrows hcols hle
  have hempty : dfEmpty ⟨sh.rows⟩ = false := by
    rw [dfEmpty]
    simp only [Bool.or_eq_false_iff, decide_eq_false_iff_not]
    exact ⟨by simpa [List.length_eq_zero] using hrows, hcols⟩
  rw [processOneSheet]
  simp only [emitE, hempty, Bool.false_eq_true, if_false]
  rw [if_pos hle]
  refine ⟨rfl, rfl, by simp⟩

/-- Witness for C7: the amended per-sheet behaviour at a concrete
one-column sheet searched in column 2. -/
theorem C7_column_bounds_amended_witness :
    (processOneSheet req2 sd5 none "a.xlsx" ⟨"S", [[some "x"]]⟩ initState).errors =
      initState.errors ++ [.error (.noColumn 2) (.fileSheet "a.xlsx" "S")] ∧
    (processOneSheet req2 sd5 none "a.xlsx" ⟨"S", [[some "x"]]⟩ initState).results =
      initState.results ∧
    (processOneSheet req2 sd5 none "a.xlsx" ⟨"S", [[some "x"]]⟩ initState).events =
      initState.events ++ [.readSheet "a.xlsx" "S", .status (.noColumnIn "a.xlsx" "S" 2)] :=
  C7_column_bounds_amended req2 sd5 none "a.xlsx" ⟨"S", [[some "x"]]⟩ initState
    (by decide) (by decide) (by decide)

/-- Claim C8 (confirmed).  Destination validation fails exactly when the
output path's parent directory equals the resolved source directory or
the output path equals a discovered source file (any such file lies
directly in the source directory, so the parent check subsumes the
existence-guarded second check); and a failed validation aborts the scan
before anything is scanned: the only terminal event is the path-error
failure and no scratch copy is ever created. -/
theorem C8_destination_validation :
    (∀ env : Env, (validate_output_path env).2 = false ↔
      (env.outputPath.dropLast = env.sourceDir ∨
       ∃ f ∈ (discoverStep env).2, env.sourceDir ++ [f] = env.outputPath)) ∧
    (∀ (env : Env) (req : SearchRequest) (ck : Option Nat),
      (validate_output_path env).2 = false →
      finishedOf (run env req ck).events = [(false, .pathError)] ∧
      ∀ id, Event.copyToTemp id ∉ (run env req ck).events) := by
  constructor
  · intro env
    rw [validate_output_path]
    by_cases h1 : env.outputPath.dropLast = env.sourceDir
    · rw [if_pos h1]
      simp [h1]
    · rw [if_neg h1]
      by_cases h2 : env.outputExists
      · rw [if_pos h2]
        simp only [decide_eq_false_iff_not, Decidable.not_not, List.any_eq_true,
          decide_eq_true_eq]
        constructor
        · intro h
          exact Or.inr h
        · rintro (h | h)
          · exact absurd h h1
          · exact h
      · rw [if_neg h2]
        simp only [Bool.true_eq_false, false_iff]
        rintro (h | ⟨f, hf, heq⟩)
        · exact h1 h
        · exact h1 (by rw [← heq, List.dropLast_concat])
  · intro env req ck h
    have hcore := runCore_pathError env req ck h
    have htemps : (runCore env req ck).temps = [] := by
      rw [hcore]
      rfl
    have hev : (run env req ck).events =
        (validate_output_path env).1 ++ [.finishedE false .pathError] := by
      rw [run_events, htemps, hcore]
      simp [emitE, initState]
    constructor
    · rw [hev]
      rw [finishedOf_append, finishedOf_chatter (validate_chatter env)]
      rfl
    · intro id hmem
      rw [hev] at hmem
      rcases List.mem_append.mp hmem with h1 | h1
      · exact copy_not_mem_of_noCopy (all_chatter_noCopy (validate_chatter env)) h1
      · simp at h1

/-- Witness for C8: the abort behaviour at a concrete request whose
output path sits inside the source directory. -/
theorem C8_destination_validation_witness :
    finishedOf (run envBadOut (mkReq ["5"]) none).events = [(false, .pathError)] ∧
    Event.copyToTemp 0 ∉ (run envBadOut (mkReq ["5"]) none).events := by
  have h := C8_destination_validation.2 envBadOut (mkReq ["5"]) none (by decide)
  exact ⟨h.1, h.2 0⟩

/-- Claim C9 (confirmed).  The matcher equals the same function with the
spaces-removed secondary comparison deleted: tokens come from a
whitespace split, so they contain no space and the secondary comparison
coincides with the primary one. -/
theorem C9_secondary_check_redundant :
    ∀ cell v, is_exact_match cell v = is_exact_match_primary_only cell v := by
  intro cell v
  rw [is_exact_match, is_exact_match_primary_only]
  by_cases hc : cell = "" ∨ v = ""
  · rw [if_pos hc, if_pos hc]
  · rw [if_neg hc, if_neg hc]
    refine any_congr_bool ?_
    intro part hp
    simp only
    by_cases hpc : stripPunct part = ""
    · rw [if_pos hpc, if_pos hpc]
    · rw [if_neg hpc, if_neg hpc]
      rw [removeSpaces_stripPunct hp]
      exact Bool.or_self _

/-- Claim C10 (confirmed).  The numeric branch of the expansion is not
total: on the term `"inf"`, `float` succeeds but `int(inf)` raises
`OverflowError`, which the `(ValueError, TypeError)` handler does not
catch; the whole scan aborts with the catch-all critical failure and no
output file is written. -/
theorem C10_infinite_term_critical_failure :
    numericVariants "inf" = .error .overflowError ∧
    buildSearchData ["inf"] = .error .overflowError ∧
    finishedOf (run envOneRow (mkReq ["inf"]) none).events = [(false, .critical)] ∧
    Event.wroteOutput ∉ (run envOneRow (mkReq ["inf"]) none).events := by
  exact ⟨rfl, rfl, by decide, by decide⟩

end ExcelSearch


